import Mathlib

/-!
Verification of the kinematic trajectory-optimization script `trajopt_kine.py`.

The script builds a nonlinear program over T+1 configuration vectors
q_0 .. q_T of dimension `model.nq`, constrains `q_0 = robot.q0`, minimizes a
running smoothness cost plus a terminal pose-error cost, solves it with IpOpt
through casadi's `Opti` interface (with a debug-iterate fallback on any
exception), and replays the resulting trajectory in a viewer.

Numeric vectors are embedded as functions `Fin nq → ℚ`; the external
kinematics substrate (pinocchio's forward kinematics and SE(3) logarithm,
which are library code, not part of this repository) is modelled from the
spec as an arbitrary group of placements equipped with a 6-vector log map
vanishing exactly at the identity.
-/

/-- A configuration vector of the robot: `model.nq` rational coordinates. -/
abbrev Config (nq : ℕ) : Type := Fin nq → ℚ

/-- The sum of squares of the entries of a vector (casadi's `sumsqr`). -/
def sumsqr {n : ℕ} (v : Fin n → ℚ) : ℚ := ∑ i, v i * v i

/-- The source line
`error_tool = casadi.Function('etool', [cq], [cpin.log6(cdata.oMf[idTool].inverse() * cpin.SE3(Mtarget)).vector])`:
the 6-vector log of the relative placement between the end-effector frame
at configuration `q` (computed by `fk`, modelling
`framesForwardKinematics` followed by the `oMf[idTool]` lookup) and the
target placement `Mtarget`. -/
def error_tool {nq : ℕ} {P : Type} [Group P] (log6 : P → Fin 6 → ℚ)
    (fk : Config nq → P) (Mtarget : P) (q : Config nq) : Fin 6 → ℚ :=
  log6 ((fk q)⁻¹ * Mtarget)

/-- Modelled from the spec: `poseError(config, target) -> R^6` "returns the
logarithm-map error between `inverse(forwardKinematics(config)) * target`
and identity ... expressed as a 6-vector". This definition follows the
spec's words; `error_tool` above follows the source. -/
def poseError {nq : ℕ} {P : Type} [Group P] (log6 : P → Fin 6 → ℚ)
    (fk : Config nq → P) (target : P) (config : Config nq) : Fin 6 → ℚ :=
  log6 ((fk config)⁻¹ * target)

/-- The running-plus-terminal cost accumulated by the source loop
`for t in range(T): totalcost += w_run * casadi.sumsqr(var_qs[t] - var_qs[t+1])`
followed by
`totalcost += w_term * casadi.sumsqr(error_tool(var_qs[T]))`,
starting from `totalcost = 0`. The decision vectors are read off an
assignment `qs : ℕ → Config nq` (index t holds `var_qs[t]`). -/
def totalcost (nq T : ℕ) (w_run w_term : ℚ) (err : Config nq → Fin 6 → ℚ)
    (qs : ℕ → Config nq) : ℚ :=
  (List.range T).foldl (fun acc t => acc + w_run * sumsqr (qs t - qs (t + 1))) 0
    + w_term * sumsqr (err (qs T))

/-- The NLP assembled by the script: decision-vector count and dimension,
the list of constraints registered by `opti.subject_to`, and the scalar
objective handed to `opti.minimize`, both read on assignments of numeric
values to the decision vectors. -/
structure NLPState (nq : ℕ) where
  numVars : ℕ
  varDim : ℕ
  constraints : List ((ℕ → Config nq) → Prop)
  objective : (ℕ → Config nq) → ℚ

/-- One `casadi.Opti()` instance whose fresh decision vectors happen to be
numbered `start, start+1, ..., start+T` in a global supply: building the
problem registers `var_qs = [opti.variable(model.nq) for t in range(T+1)]`,
the single constraint `var_qs[0] == robot.q0`, and `totalcost`. -/
def buildNLPFrom (nq start T : ℕ) (q0 : Config nq) (w_run w_term : ℚ)
    (err : Config nq → Fin 6 → ℚ) : NLPState nq :=
  { numVars := T + 1
    varDim := nq
    constraints := [fun a => a start = q0]
    objective := fun a => totalcost nq T w_run w_term err (fun t => a (start + t)) }

/-- The problem of the script, with its decision vectors numbered from 0:
`var_qs[t]` is index `t` of the assignment. -/
def buildNLP (nq T : ℕ) (q0 : Config nq) (w_run w_term : ℚ)
    (err : Config nq → Fin 6 → ℚ) : NLPState nq :=
  { numVars := T + 1
    varDim := nq
    constraints := [fun a => a 0 = q0]
    objective := totalcost nq T w_run w_term err }

/-- An assignment satisfies the single registered constraint
`var_qs[0] == robot.q0`. -/
def Feasible {nq : ℕ} (q0 : Config nq) (a : ℕ → Config nq) : Prop :=
  a 0 = q0

/-- An assignment minimizes `f` over the feasible set. -/
def IsMinimizer {nq : ℕ} (f : (ℕ → Config nq) → ℚ) (q0 : Config nq)
    (a : ℕ → Config nq) : Prop :=
  Feasible q0 a ∧ ∀ b, Feasible q0 b → f a ≤ f b

/- ### Helper lemmas -/

theorem foldl_range_add (f : ℕ → ℚ) (n : ℕ) :
    (List.range n).foldl (fun acc t => acc + f t) 0 = ∑ t in Finset.range n, f t := by
  induction n with
  | zero => simp
  | succ n ih =>
    rw [List.range_succ, List.foldl_append, ih, Finset.sum_range_succ]
    simp

theorem totalcost_eq_sum (nq T : ℕ) (w_run w_term : ℚ)
    (err : Config nq → Fin 6 → ℚ) (qs : ℕ → Config nq) :
    totalcost nq T w_run w_term err qs =
      (∑ t in Finset.range T, w_run * sumsqr (qs t - qs (t + 1)))
        + w_term * sumsqr (err (qs T)) := by
  rw [totalcost, foldl_range_add]

/-- C1. The built NLP has exactly T+1 decision vectors of dimension nq,
exactly the one hard constraint `a 0 = q0`, and objective
`w_run * Σ_{t<T} ǁq_t - q_{t+1}ǁ² + w_term * ǁerr(q_T)ǁ²`, for every
horizon T and all weights. -/
theorem buildNLP_shape (nq T : ℕ) (q0 : Config nq) (w_run w_term : ℚ)
    (err : Config nq → Fin 6 → ℚ) :
    (buildNLP nq T q0 w_run w_term err).numVars = T + 1
    ∧ (buildNLP nq T q0 w_run w_term err).varDim = nq
    ∧ (buildNLP nq T q0 w_run w_term err).constraints = [fun a => a 0 = q0]
    ∧ ∀ a, (buildNLP nq T q0 w_run w_term err).objective a =
        w_run * (∑ t in Finset.range T, sumsqr (a t - a (t + 1)))
          + w_term * sumsqr (err (a T)) := by
  refine ⟨rfl, rfl, rfl, fun a => ?_⟩
  show totalcost nq T w_run w_term err a = _
  rw [totalcost_eq_sum, Finset.mul_sum]

/- ### Solver driver (the try/except block around `opti.solve_limited()`) -/

/-- The diagnostic printed by the `except` branch. -/
def convergenceErrorMsg : String := "ERROR in convergence, plotting debug info."

/-- The source block
```
try:
    sol = opti.solve_limited()
    sol_qs = [opti.value(var_q) for var_q in var_qs]
except:
    print('ERROR in convergence, plotting debug info.')
    sol_qs = [opti.debug.value(var_q) for var_q in var_qs]
```
`attempt` models the outcome of `opti.solve_limited()` together with the
post-solve `opti.value` accessor: `Except.ok value` when the solver
terminates normally, `Except.error e` when ANY exception `e` (of any type
`ε`) escapes the solve; `debugValue` models `opti.debug.value`, the last
attempted internal iterate of each decision vector. The result is the
converged flag, the extracted trajectory `sol_qs`, and the printed
diagnostics. -/
def solveDriver {nq : ℕ} {ε : Type} (T : ℕ)
    (attempt : Except ε (ℕ → Config nq)) (debugValue : ℕ → Config nq) :
    Bool × List (Config nq) × List String :=
  match attempt with
  | Except.ok value => (true, (List.range (T + 1)).map value, [])
  | Except.error _ =>
      (false, (List.range (T + 1)).map debugValue, [convergenceErrorMsg])

/-- C2. On normal termination the final value of every decision vector is
returned with `converged = true` and nothing logged; on ANY exception
(arbitrary exception type `ε`, arbitrary exception value `e`) the driver
returns the debug iterate of every decision vector with
`converged = false` and logs the diagnostic — never reporting success. -/
theorem solveDriver_spec {nq : ℕ} {ε : Type} (T : ℕ)
    (value debugValue : ℕ → Config nq) (e : ε) :
    solveDriver (ε := ε) T (Except.ok value) debugValue =
      (true, (List.range (T + 1)).map value, [])
    ∧ solveDriver T (Except.error e) debugValue =
      (false, (List.range (T + 1)).map debugValue, [convergenceErrorMsg]) :=
  ⟨rfl, rfl⟩

/- ### Pose error (claims C3 and C4) -/

/-- C3. The source's `error_tool` is exactly the spec's `poseError`: the
log map of `inverse(forwardKinematics(q)) * target` as a 6-vector, for
every configuration `q` and every kinematics substrate. -/
theorem error_tool_eq_poseError {nq : ℕ} {P : Type} [Group P]
    (log6 : P → Fin 6 → ℚ) (fk : Config nq → P) (Mtarget : P)
    (q : Config nq) :
    error_tool log6 fk Mtarget q = poseError log6 fk Mtarget q := rfl

/-- C4. If the log map vanishes exactly at the identity placement (the
spec's invariant for the external log map), then the pose error at `q` is
the zero 6-vector iff the end-effector placement at `q` equals the
target. -/
theorem error_tool_eq_zero_iff {nq : ℕ} {P : Type} [Group P]
    (log6 : P → Fin 6 → ℚ) (fk : Config nq → P) (Mtarget : P)
    (hlog : ∀ x, log6 x = 0 ↔ x = 1) (q : Config nq) :
    error_tool log6 fk Mtarget q = 0 ↔ fk q = Mtarget := by
  rw [error_tool, hlog, inv_mul_eq_one]

/- ### A concrete kinematics substrate for witnesses and counterexamples.
The placement group is `Multiplicative (Fin 6 → ℚ)` and the log map is the
identity chart, which vanishes exactly at the identity as the spec
requires. -/

/-- A concrete placement group used to instantiate the generic theorems. -/
def QP : Type := Multiplicative (Fin 6 → ℚ)

instance : Group QP := inferInstanceAs (Group (Multiplicative (Fin 6 → ℚ)))

/-- The log map of the concrete substrate. -/
def log6W : QP → Fin 6 → ℚ := fun x => Multiplicative.toAdd x

/-- A concrete forward-kinematics map (nq = 6, the ur5's `model.nq`). -/
def fkW : Config 6 → QP := fun q => Multiplicative.ofAdd (fun i => q i)

theorem log6W_zero_iff : ∀ x, log6W x = 0 ↔ x = 1 := fun _ => Iff.rfl

/-- C4 witness: the hypothesis and the conclusion of
`error_tool_eq_zero_iff` at the concrete substrate and `q = 0`. -/
theorem error_tool_eq_zero_iff_witness :
    (∀ x, log6W x = 0 ↔ x = 1)
    ∧ (error_tool log6W fkW (1 : QP) (0 : Config 6) = 0
        ↔ fkW (0 : Config 6) = (1 : QP)) :=
  ⟨log6W_zero_iff,
   error_tool_eq_zero_iff log6W fkW (1 : QP) log6W_zero_iff (0 : Config 6)⟩

/- ### Sign and degeneracy lemmas about the objective -/

theorem sumsqr_nonneg {n : ℕ} (v : Fin n → ℚ) : 0 ≤ sumsqr v :=
  Finset.sum_nonneg fun i _ => mul_self_nonneg (v i)

theorem sumsqr_eq_zero_iff {n : ℕ} (v : Fin n → ℚ) : sumsqr v = 0 ↔ v = 0 := by
  rw [sumsqr, Finset.sum_eq_zero_iff_of_nonneg (fun i _ => mul_self_nonneg (v i))]
  constructor
  · intro h
    funext i
    exact mul_self_eq_zero.1 (h i (Finset.mem_univ i))
  · intro h i _
    rw [h]
    simp

theorem sumsqr_zero {n : ℕ} : sumsqr (0 : Fin n → ℚ) = 0 :=
  (sumsqr_eq_zero_iff 0).2 rfl

theorem totalcost_nonneg (nq T : ℕ) (w_run w_term : ℚ)
    (err : Config nq → Fin 6 → ℚ) (qs : ℕ → Config nq)
    (h1 : 0 ≤ w_run) (h2 : 0 ≤ w_term) :
    0 ≤ totalcost nq T w_run w_term err qs := by
  rw [totalcost_eq_sum]
  exact add_nonneg
    (Finset.sum_nonneg fun t _ => mul_nonneg h1 (sumsqr_nonneg _))
    (mul_nonneg h2 (sumsqr_nonneg _))

theorem totalcost_wrun_zero (nq T : ℕ) (w_term : ℚ)
    (err : Config nq → Fin 6 → ℚ) (qs : ℕ → Config nq) :
    totalcost nq T 0 w_term err qs = w_term * sumsqr (err (qs T)) := by
  rw [totalcost_eq_sum]
  simp

theorem totalcost_wterm_zero (nq T : ℕ) (w_run : ℚ)
    (err : Config nq → Fin 6 → ℚ) (qs : ℕ → Config nq) :
    totalcost nq T w_run 0 err qs =
      ∑ t in Finset.range T, w_run * sumsqr (qs t - qs (t + 1)) := by
  rw [totalcost_eq_sum]
  simp

/- ### Claim C7: the horizon-zero boundary case -/

/-- C7. With T = 0 the running sum has zero terms: the NLP has a single
decision vector `q_0`, constrained to `q0`, the objective is the terminal
term alone, and an assignment is a minimizer iff it is feasible — the
problem degenerates to a feasibility check pinning the answer to `q0`. -/
theorem buildNLP_horizon_zero (nq : ℕ) (q0 : Config nq) (w_run w_term : ℚ)
    (err : Config nq → Fin 6 → ℚ) :
    (buildNLP nq 0 q0 w_run w_term err).numVars = 1
    ∧ (buildNLP nq 0 q0 w_run w_term err).constraints = [fun a => a 0 = q0]
    ∧ (∀ a, (buildNLP nq 0 q0 w_run w_term err).objective a
        = w_term * sumsqr (err (a 0)))
    ∧ (∀ a, IsMinimizer ((buildNLP nq 0 q0 w_run w_term err).objective) q0 a
        ↔ a 0 = q0) := by
  have hobj : ∀ a : ℕ → Config nq,
      (buildNLP nq 0 q0 w_run w_term err).objective a
        = w_term * sumsqr (err (a 0)) := by
    intro a
    show totalcost nq 0 w_run w_term err a = _
    rw [totalcost_eq_sum]
    simp
  refine ⟨rfl, rfl, hobj, fun a => ?_⟩
  constructor
  · intro h
    exact h.1
  · intro ha
    refine ⟨ha, fun b hb => ?_⟩
    rw [hobj, hobj]
    have hb' : b 0 = q0 := hb
    rw [ha, hb']

/- ### Claim C6: pure smoothness objective (w_term = 0) -/

/-- C6. With `w_term = 0` and `w_run > 0`, the constant assignment at `q0`
is a minimizer with objective value zero, and it is the unique
zero-objective feasible trajectory: the smoothness sum vanishes only when
all consecutive steps are equal, which under `q_0 = q0` forces `q_t = q0`
for every `t ≤ T`. -/
theorem buildNLP_wterm_zero_opt (nq T : ℕ) (q0 : Config nq) (w_run : ℚ)
    (err : Config nq → Fin 6 → ℚ) (hw : 0 < w_run) :
    IsMinimizer ((buildNLP nq T q0 w_run 0 err).objective) q0 (fun _ => q0)
    ∧ (buildNLP nq T q0 w_run 0 err).objective (fun _ => q0) = 0
    ∧ ∀ a, Feasible q0 a →
        (buildNLP nq T q0 w_run 0 err).objective a = 0 →
        ∀ t, t ≤ T → a t = q0 := by
  have hobj : ∀ a : ℕ → Config nq,
      (buildNLP nq T q0 w_run 0 err).objective a
        = ∑ t in Finset.range T, w_run * sumsqr (a t - a (t + 1)) :=
    fun a => totalcost_wterm_zero nq T w_run err a
  have hval : (buildNLP nq T q0 w_run 0 err).objective (fun _ => q0) = 0 := by
    rw [hobj]
    refine Finset.sum_eq_zero fun t _ => ?_
    rw [sub_self, sumsqr_zero, mul_zero]
  refine ⟨⟨rfl, fun b _ => ?_⟩, hval, fun a ha h0 => ?_⟩
  · rw [hval]
    exact totalcost_nonneg nq T w_run 0 err b hw.le le_rfl
  · rw [hobj] at h0
    have hstep : ∀ t, t < T → a t = a (t + 1) := by
      intro t htT
      have hz := (Finset.sum_eq_zero_iff_of_nonneg
          (fun i _ => mul_nonneg hw.le (sumsqr_nonneg (a i - a (i + 1))))).1
          h0 t (Finset.mem_range.2 htT)
      have hss : sumsqr (a t - a (t + 1)) = 0 := by
        rcases mul_eq_zero.1 hz with h | h
        · exact absurd h hw.ne'
        · exact h
      exact sub_eq_zero.1 ((sumsqr_eq_zero_iff _).1 hss)
    intro t
    induction t with
    | zero => intro _; exact ha
    | succ t ih =>
      intro ht
      have h1 : t < T := Nat.lt_of_lt_of_le (Nat.lt_succ_self t) ht
      rw [← hstep t h1]
      exact ih h1.le

/-- The pose-error function of the concrete substrate, used to instantiate
the generic theorems at closed inputs. -/
def errW : Config 6 → Fin 6 → ℚ := error_tool log6W fkW (1 : QP)

/-- C6 witness: the hypothesis `0 < w_run` and the conclusion of
`buildNLP_wterm_zero_opt` at nq = 6, T = 1, q0 = 0, w_run = 1. -/
theorem buildNLP_wterm_zero_opt_witness :
    (0 : ℚ) < 1
    ∧ (IsMinimizer ((buildNLP 6 1 (0 : Config 6) 1 0 errW).objective)
          0 (fun _ => 0)
       ∧ (buildNLP 6 1 (0 : Config 6) 1 0 errW).objective (fun _ => 0) = 0
       ∧ ∀ a, Feasible (0 : Config 6) a →
           (buildNLP 6 1 (0 : Config 6) 1 0 errW).objective a = 0 →
           ∀ t, t ≤ 1 → a t = 0) :=
  ⟨one_pos, buildNLP_wterm_zero_opt 6 1 0 1 errW one_pos⟩

/- ### Claim C5: pure terminal objective (w_run = 0) -/

/-- C5 (amended). With `w_run = 0` and `T ≥ 1`, an assignment is a
minimizer iff it is feasible and its terminal vector minimizes the
terminal term alone; the intermediate steps are unconstrained. -/
theorem buildNLP_wrun_zero_opt (nq T : ℕ) (q0 : Config nq) (w_term : ℚ)
    (err : Config nq → Fin 6 → ℚ) (hT : 1 ≤ T) (a : ℕ → Config nq) :
    IsMinimizer ((buildNLP nq T q0 0 w_term err).objective) q0 a ↔
      (a 0 = q0
       ∧ ∀ y : Config nq,
           w_term * sumsqr (err (a T)) ≤ w_term * sumsqr (err y)) := by
  have hobj : ∀ b : ℕ → Config nq,
      (buildNLP nq T q0 0 w_term err).objective b
        = w_term * sumsqr (err (b T)) :=
    fun b => totalcost_wrun_zero nq T w_term err b
  have hT0 : T ≠ 0 := by omega
  constructor
  · rintro ⟨hf, hmin⟩
    refine ⟨hf, fun y => ?_⟩
    have hb := hmin (fun i => if i = 0 then q0 else y) (by simp [Feasible])
    rw [hobj, hobj] at hb
    simpa [hT0] using hb
  · rintro ⟨hf, hy⟩
    refine ⟨hf, fun b _ => ?_⟩
    rw [hobj, hobj]
    exact hy (b T)

/-- C5 witness: the hypothesis `1 ≤ T` and the conclusion of
`buildNLP_wrun_zero_opt` at nq = 6, T = 1, q0 = 0, w_term = 1 and the
constant-zero assignment. -/
theorem buildNLP_wrun_zero_opt_witness :
    1 ≤ 1
    ∧ (IsMinimizer ((buildNLP 6 1 (0 : Config 6) 0 1 errW).objective)
          0 (fun _ => 0) ↔
        ((0 : Config 6) = 0
         ∧ ∀ y : Config 6, 1 * sumsqr (errW 0) ≤ 1 * sumsqr (errW y))) :=
  ⟨le_rfl, buildNLP_wrun_zero_opt 6 1 0 1 errW le_rfl (fun _ => 0)⟩

/-- An assignment equal to `q0 = 0` everywhere except at the intermediate
index 1, where it takes the constant-one vector. -/
def aCex : ℕ → Config 6 := fun i => if i = 1 then (fun _ => 1) else 0

/-- C5 counterexample: with `w_run = 0`, `w_term = 1`, horizon T = 2 and
`q0 = 0`, the assignment `aCex` is a minimizer of the built objective even
though its intermediate step `aCex 1` differs from `q0` — so not every
minimizer keeps the intermediate steps at `q0`. -/
theorem wrun_zero_intermediate_cex :
    IsMinimizer ((buildNLP 6 2 (0 : Config 6) 0 1 errW).objective) 0 aCex
    ∧ aCex 1 ≠ (0 : Config 6) := by
  have hval : (buildNLP 6 2 (0 : Config 6) 0 1 errW).objective aCex = 0 := by
    rw [show (buildNLP 6 2 (0 : Config 6) 0 1 errW).objective aCex
          = 1 * sumsqr (errW (aCex 2)) from totalcost_wrun_zero 6 2 1 errW aCex]
    have h2 : aCex 2 = 0 := by simp [aCex]
    rw [h2, one_mul]
    have h0 : errW 0 = 0 := by
      rw [show errW 0 = Multiplicative.toAdd ((fkW 0)⁻¹ * 1) from rfl, mul_one,
        toAdd_inv, show Multiplicative.toAdd (fkW 0) = (0 : Fin 6 → ℚ) from rfl,
        neg_zero]
    rw [h0, sumsqr_zero]
  refine ⟨⟨by simp [Feasible, aCex], fun b _ => ?_⟩, ?_⟩
  · rw [hval]
    exact totalcost_nonneg 6 2 0 1 errW b le_rfl zero_le_one
  · intro h
    have h1 := congrFun h 0
    simp [aCex] at h1

/- ### Claim C8: building twice yields semantically identical problems -/

/-- C8. Building the NLP twice from identical inputs (two `casadi.Opti()`
instances whose fresh decision vectors occupy arbitrary disjoint global
ranges starting at `s₁` and `s₂`) yields problems of the same shape whose
objective takes identical values at every assignment `v` of the decision
vectors (decision vector t of each instance receiving `v t`), and whose
constraints are satisfied by exactly the same assignments. -/
theorem buildNLPFrom_offset_indep (nq s₁ s₂ T : ℕ) (q0 : Config nq)
    (w_run w_term : ℚ) (err : Config nq → Fin 6 → ℚ) (v : ℕ → Config nq) :
    (buildNLPFrom nq s₁ T q0 w_run w_term err).numVars
      = (buildNLPFrom nq s₂ T q0 w_run w_term err).numVars
    ∧ (buildNLPFrom nq s₁ T q0 w_run w_term err).varDim
      = (buildNLPFrom nq s₂ T q0 w_run w_term err).varDim
    ∧ (buildNLPFrom nq s₁ T q0 w_run w_term err).objective (fun i => v (i - s₁))
      = (buildNLPFrom nq s₂ T q0 w_run w_term err).objective (fun i => v (i - s₂))
    ∧ ((∀ c ∈ (buildNLPFrom nq s₁ T q0 w_run w_term err).constraints,
          c (fun i => v (i - s₁)))
        ↔ (∀ c ∈ (buildNLPFrom nq s₂ T q0 w_run w_term err).constraints,
          c (fun i => v (i - s₂)))) := by
  have key : ∀ s : ℕ, (fun t => v (s + t - s)) = v := by
    intro s
    funext t
    rw [Nat.add_sub_cancel_left]
  refine ⟨rfl, rfl, ?_, ?_⟩
  · show totalcost nq T w_run w_term err (fun t => v (s₁ + t - s₁))
      = totalcost nq T w_run w_term err (fun t => v (s₂ + t - s₂))
    rw [key s₁, key s₂]
  · simp only [buildNLPFrom, List.mem_singleton, forall_eq, Nat.sub_self]

/- ### Visualization model (claims C9 and C10) -/

/-- The name of the target box registered by `viz.addBox(boxID, ...)`. -/
def boxID : String := "world/box"

/-- The name of the end-effector box registered by `viz.addBox(tipID, ...)`. -/
def tipID : String := "world/blue"

/-- One observable action of the viewer-facing code: a
`viz.applyConfiguration(name, pose)` call, a `viz.display(q)` call, or a
`time.sleep(dt)` pause. -/
inductive VizEvent (nq : ℕ) (P : Type) where
  | applyConfig (name : String) (pose : P)
  | display (q : Config nq)
  | sleep (dt : ℚ)
deriving DecidableEq

/-- The mutable state touched by `displayScene`: the pinocchio `data`
cache written by `framesForwardKinematics` (modelled by the placement it
leaves in `data.oMf[idTool]`) and the chronological log of viewer calls
and pauses. -/
structure SceneState (nq : ℕ) (P : Type) where
  dataOMf : Option P
  log : List (VizEvent nq P)

/-- The source function
```
def displayScene(q, dt=1e-1):
    pin.framesForwardKinematics(model, data, q)
    M = data.oMf[idTool]
    viz.applyConfiguration(boxID, Mtarget)
    viz.applyConfiguration(tipID, M)
    viz.display(q)
    time.sleep(dt)
```
with the forward-kinematics routine abstracted as `fk`. -/
def displayScene {nq : ℕ} {P : Type} (fk : Config nq → P) (Mtarget : P)
    (q : Config nq) (dt : ℚ) (s : SceneState nq P) : SceneState nq P :=
  { dataOMf := some (fk q)
    log := s.log ++ [VizEvent.applyConfig boxID Mtarget,
      VizEvent.applyConfig tipID (fk q), VizEvent.display q,
      VizEvent.sleep dt] }

/-- The source function
```
def displayTraj(qs, dt=1e-2):
    for q in qs[1:]:
        displayScene(q, dt=dt)
```
iterating `displayScene` over the slice `qs[1:]`. -/
def displayTraj {nq : ℕ} {P : Type} (fk : Config nq → P) (Mtarget : P)
    (qs : List (Config nq)) (dt : ℚ) (s : SceneState nq P) : SceneState nq P :=
  (qs.drop 1).foldl (fun st q => displayScene fk Mtarget q dt st) s

/-- The configurations shown by `viz.display`, in order, in a viewer log. -/
def displayedConfigs {nq : ℕ} {P : Type} (log : List (VizEvent nq P)) :
    List (Config nq) :=
  log.filterMap fun e =>
    match e with
    | VizEvent.display q => some q
    | _ => none

/-- The block of viewer calls one `displayScene(q, dt)` call appends. -/
def sceneEvents {nq : ℕ} {P : Type} (fk : Config nq → P) (Mtarget : P)
    (dt : ℚ) (q : Config nq) : List (VizEvent nq P) :=
  [VizEvent.applyConfig boxID Mtarget, VizEvent.applyConfig tipID (fk q),
    VizEvent.display q, VizEvent.sleep dt]

theorem displayScene_log {nq : ℕ} {P : Type} (fk : Config nq → P)
    (Mtarget : P) (q : Config nq) (dt : ℚ) (s : SceneState nq P) :
    (displayScene fk Mtarget q dt s).log
      = s.log ++ sceneEvents fk Mtarget dt q := rfl

theorem displayTraj_foldl_log {nq : ℕ} {P : Type} (fk : Config nq → P)
    (Mtarget : P) (dt : ℚ) (l : List (Config nq)) (s : SceneState nq P) :
    (l.foldl (fun st q => displayScene fk Mtarget q dt st) s).log
      = s.log ++ l.flatMap (sceneEvents fk Mtarget dt) := by
  induction l generalizing s with
  | nil => simp
  | cons q l ih =>
    rw [List.foldl_cons, ih, List.flatMap_cons, displayScene_log,
      List.append_assoc]

theorem displayedConfigs_append {nq : ℕ} {P : Type}
    (l₁ l₂ : List (VizEvent nq P)) :
    displayedConfigs (l₁ ++ l₂)
      = displayedConfigs l₁ ++ displayedConfigs l₂ :=
  List.filterMap_append l₁ l₂ _

theorem displayedConfigs_sceneEvents {nq : ℕ} {P : Type}
    (fk : Config nq → P) (Mtarget : P) (dt : ℚ) (q : Config nq) :
    displayedConfigs (sceneEvents fk Mtarget dt q) = [q] := rfl

/-- C10. Playing a trajectory `qs` appends to the viewer log exactly the
`displayScene` blocks of the elements of `qs[1:]` (each showing the target
box, the tip box at the element's forward kinematics, the element itself,
then pausing `dt`), in increasing index order; consequently exactly the
elements of index 1 through `qs.length - 1` are displayed, in order, and
the element at index 0 is never displayed by the player. -/
theorem displayTraj_spec {nq : ℕ} {P : Type} (fk : Config nq → P)
    (Mtarget : P) (qs : List (Config nq)) (dt : ℚ) (s : SceneState nq P) :
    (displayTraj fk Mtarget qs dt s).log
      = s.log ++ (qs.drop 1).flatMap (sceneEvents fk Mtarget dt)
    ∧ displayedConfigs (displayTraj fk Mtarget qs dt s).log
      = displayedConfigs s.log ++ qs.drop 1
    ∧ ∀ i : ℕ, (qs.drop 1)[i]? = qs[i + 1]? := by
  have hlog := displayTraj_foldl_log fk Mtarget dt (qs.drop 1) s
  refine ⟨hlog, ?_, fun i => ?_⟩
  · rw [displayTraj, hlog, displayedConfigs_append]
    congr 1
    induction qs.drop 1 with
    | nil => rfl
    | cons q l ih =>
      rw [List.flatMap_cons, displayedConfigs_append,
        displayedConfigs_sceneEvents, ih]
      rfl
  · rw [List.getElem?_drop, Nat.add_comm]

/- ### Claim C9: the per-iteration solver callback -/

/-- The decision-vector index denoted by `var_qs[-1]`, the last element of
`var_qs = [opti.variable(model.nq) for t in range(T+1)]` when the vectors
are numbered `0 .. T`. -/
def lastVarIndex (T : ℕ) : ℕ := (List.range (T + 1)).getLastD 0

/-- The solver-internal state visible to the script: the `opti.debug.value`
accessor giving the current internal iterate of each decision vector. -/
structure SolverState (nq : ℕ) where
  debugValue : ℕ → Config nq

/-- The whole state in scope during the solve: the built NLP, the solver's
internal state, and the viewer-facing scene state. -/
structure RunState (nq : ℕ) (P : Type) where
  nlp : NLPState nq
  solver : SolverState nq
  scene : SceneState nq P

/-- The source line
`opti.callback(lambda i: displayScene(opti.debug.value(var_qs[-1])))`:
one invocation of the registered per-iteration callback, which reads the
solver's current guess for the last decision vector and displays it with
`displayScene`'s default pause `dt = 1e-1`. -/
def callbackStep {nq : ℕ} {P : Type} (fk : Config nq → P) (Mtarget : P)
    (T : ℕ) (i : ℕ) (s : RunState nq P) : RunState nq P :=
  { nlp := s.nlp
    solver := s.solver
    scene := displayScene fk Mtarget (s.solver.debugValue (lastVarIndex T))
      (1 / 10) s.scene }

/-- C9. Invoking the registered callback at any iteration `i` displays the
solver's current best guess for the terminal decision vector (`var_qs[-1]`
is index T) and only appends viewer events: the NLP state and the
solver-internal state are left unchanged. -/
theorem callbackStep_spec {nq : ℕ} {P : Type} (fk : Config nq → P)
    (Mtarget : P) (T i : ℕ) (s : RunState nq P) :
    (callbackStep fk Mtarget T i s).nlp = s.nlp
    ∧ (callbackStep fk Mtarget T i s).solver = s.solver
    ∧ lastVarIndex T = T
    ∧ (callbackStep fk Mtarget T i s).scene.log
      = s.scene.log
        ++ sceneEvents fk Mtarget (1 / 10) (s.solver.debugValue T) := by
  have hlast : lastVarIndex T = T := by
    simp [lastVarIndex, List.range_succ]
  refine ⟨rfl, rfl, hlast, ?_⟩
  show (displayScene fk Mtarget (s.solver.debugValue (lastVarIndex T))
      (1 / 10) s.scene).log = _
  rw [hlast, displayScene_log]
